import Mathlib

/-!
Verification of the notectl core (note/todo/template/tag repositories and the
search engine) against its natural-language specification.

The Rust source is shallowly embedded: the SQLite database is a record of row
lists, each repository function becomes a pure Lean function on that record,
and timestamps are integers (seconds).  The local timezone is modelled as a
fixed zero offset, so a calendar date's "local end-of-day instant" is a pure
function of the date.  The FTS5 full-text index is modelled at the token
level: the default unicode61 tokenizer is approximated by ASCII alphanumeric
runs folded to lower case, and a quoted phrase matches a document when the
phrase's token list occurs contiguously in the document's token list.
String manipulation (trim, lowercase, substring, replace) is re-implemented
on character lists so that every definition is kernel-executable.
-/

/-- Whitespace set used by trimming (ASCII fragment of Rust's
char::is_whitespace; inputs in this development are ASCII). -/
def rustIsWs (c : Char) : Bool :=
  c = ' ' || c = '\t' || c = '\n' || c = '\r' || c = '\x0b' || c = '\x0c'

/-- Embeds Rust's str::trim: drop whitespace from both ends. -/
def rustTrim (s : String) : String :=
  ⟨((s.data.dropWhile rustIsWs).reverse.dropWhile rustIsWs).reverse⟩

/-- ASCII lower-casing of one character (embeds the ASCII case of Rust's
to_lowercase, which is what the priority keywords exercise). -/
def asciiLowerChar (c : Char) : Char :=
  if 'A' ≤ c ∧ c ≤ 'Z' then Char.ofNat (c.toNat + 32) else c

/-- ASCII lower-casing of a string. -/
def toLowerStr (s : String) : String :=
  ⟨s.data.map asciiLowerChar⟩

/-- `leadsWith pat l` holds when `pat` is an initial segment of `l`. -/
def leadsWith [BEq α] : List α → List α → Bool
  | [], _ => true
  | _ :: _, [] => false
  | p :: ps, c :: cs => p == c && leadsWith ps cs

/-- `hasSeg pat l` holds when `pat` occurs contiguously somewhere in `l`. -/
def hasSeg [BEq α] (pat : List α) : List α → Bool
  | [] => pat.isEmpty
  | c :: cs => leadsWith pat (c :: cs) || hasSeg pat cs

/-- Embeds Rust's str::contains with a literal pattern (byte substring;
identical to character-list containment for the strings involved). -/
def strContainsB (hay needle : String) : Bool :=
  hasSeg needle.data hay.data

/-- Fuel-indexed engine of leftmost non-overlapping replacement: each match
of `pat` is replaced by `rep` and scanning resumes after the match, exactly
as Rust's str::replace builds its output from match_indices. -/
def replaceSegAux [BEq α] (pat rep : List α) : Nat → List α → List α
  | 0, l => l
  | _ + 1, [] => []
  | fuel + 1, c :: cs =>
    if leadsWith pat (c :: cs) && !pat.isEmpty then
      rep ++ replaceSegAux pat rep fuel ((c :: cs).drop pat.length)
    else
      c :: replaceSegAux pat rep fuel cs

/-- Embeds Rust's str::replace for a non-empty literal pattern (every pattern
used by the template renderer is brace-delimited, hence non-empty). -/
def rustReplace (s pat rep : String) : String :=
  if pat.data.isEmpty then s
  else ⟨replaceSegAux pat.data rep.data s.data.length s.data⟩

/-- Token characters of the modelled FTS5 tokenizer: ASCII alphanumerics. -/
def isTokenChar (c : Char) : Bool :=
  c.isAlphanum

/-- Splits a character list into maximal token-character runs, folding each
run to lower case; the accumulator holds the current run reversed. -/
def tokenizeAux : List Char → List Char → List (List Char)
  | [], acc => if acc.isEmpty then [] else [acc.reverse]
  | c :: rest, acc =>
    if isTokenChar c then
      tokenizeAux rest (asciiLowerChar c :: acc)
    else if acc.isEmpty then
      tokenizeAux rest []
    else
      acc.reverse :: tokenizeAux rest []

/-- Tokenization of a string under the modelled unicode61 tokenizer. -/
def tokenize (s : String) : List (List Char) :=
  tokenize.go s.data
where
  go (l : List Char) : List (List Char) := tokenizeAux l []

/-- Modelled FTS5 quoted-phrase match: the phrase built from `term` (quote
doubling inside the query string does not change the token sequence, since
quotes are not token characters) matches `content` when the term's token
list occurs contiguously in the content's token list. -/
def phraseMatchB (content term : String) : Bool :=
  hasSeg (tokenize term) (tokenize content)

/-- Row of the `notes` table (db.rs schema). -/
structure NoteRow where
  id : Int
  content : String
  created_at : Int
  updated_at : Int
  category : Option String
  is_daily : Bool
deriving Repr, DecidableEq

/-- Row of the `tags` table. -/
structure TagRow where
  note_id : Int
  tag : String
deriving Repr, DecidableEq

/-- Row of the `notes_fts` full-text index. -/
structure FtsRow where
  rowid : Int
  content : String
deriving Repr, DecidableEq

/-- Row of the `todos` table. -/
structure TodoRow where
  id : Int
  task : String
  completed : Bool
  priority : String
  due_date : Option Int
  created_at : Int
deriving Repr, DecidableEq

/-- The persistent store: the four row lists plus the rowid allocators
(SQLite hands out fresh surrogate ids; last_insert_rowid is the id used by
the insert that just ran). -/
structure DB where
  notes : List NoteRow
  tags : List TagRow
  notes_fts : List FtsRow
  todos : List TodoRow
  nextNoteId : Int
  nextTodoId : Int
deriving Repr, DecidableEq

/-- A freshly initialized store. -/
def emptyDB : DB :=
  { notes := [], tags := [], notes_fts := [], todos := [],
    nextNoteId := 1, nextTodoId := 1 }

/-- One SQL statement issued by the note repository, at the granularity of
the individual `conn.execute` calls in note.rs.  `beginTx`/`commitTx` are
the transaction-boundary statements rusqlite would issue for a transaction;
they are part of the statement language so that their absence from the
mutation sequences is expressible. -/
inductive Stmt where
  | beginTx : Stmt
  | commitTx : Stmt
  | insertNote (content : String) (category : Option String) (is_daily : Bool) : Stmt
  | insertFts (rowid : Int) (content : String) : Stmt
  | insertTag (note_id : Int) (tag : String) : Stmt
  | deleteFts (rowid : Int) : Stmt
  | deleteTagsOf (note_id : Int) : Stmt
  | deleteNote (id : Int) : Stmt
  | updateNote (id : Int) (content : String) : Stmt
deriving Repr, DecidableEq

/-- Whether a statement is a transaction boundary. -/
def Stmt.isTx : Stmt → Bool
  | .beginTx => true
  | .commitTx => true
  | _ => false

/-- Effect of one statement on the store (`now` is the clock reading used
for inserted timestamps). -/
def execStmt (now : Int) (db : DB) : Stmt → DB
  | .beginTx => db
  | .commitTx => db
  | .insertNote c cat d =>
    { db with
      notes := db.notes ++ [⟨db.nextNoteId, c, now, now, cat, d⟩],
      nextNoteId := db.nextNoteId + 1 }
  | .insertFts r c => { db with notes_fts := db.notes_fts ++ [⟨r, c⟩] }
  | .insertTag nid t => { db with tags := db.tags ++ [⟨nid, t⟩] }
  | .deleteFts r =>
    { db with notes_fts := db.notes_fts.filter (fun f => !(f.rowid == r)) }
  | .deleteTagsOf nid =>
    { db with tags := db.tags.filter (fun tr => !(tr.note_id == nid)) }
  | .deleteNote i =>
    { db with notes := db.notes.filter (fun n => !(n.id == i)) }
  | .updateNote i c =>
    { db with
      notes := db.notes.map (fun n =>
        if n.id == i then { n with content := c, updated_at := now } else n) }

/-- Executes a statement sequence left to right. -/
def execStmts (now : Int) (db : DB) (stmts : List Stmt) : DB :=
  stmts.foldl (execStmt now) db

/-- Query-result note (note.rs `Note`): a row plus its tag list, with the
timestamp-to-local conversion modelled as the identity on the stored
seconds. -/
structure Note where
  id : Int
  content : String
  created_at : Int
  updated_at : Int
  category : Option String
  is_daily : Bool
  tags : List String
deriving Repr, DecidableEq

/-- Embeds note.rs get_tags_for_note: the tag strings of all tag rows whose
note_id matches. -/
def get_tags_for_note (db : DB) (note_id : Int) : List String :=
  (db.tags.filter (fun tr => tr.note_id == note_id)).map (fun tr => tr.tag)

/-- Builds the query-result `Note` for a row, looking up its tags. -/
def noteFromRow (db : DB) (n : NoteRow) : Note :=
  { id := n.id, content := n.content, created_at := n.created_at,
    updated_at := n.updated_at, category := n.category,
    is_daily := n.is_daily, tags := get_tags_for_note db n.id }

namespace Note

/-- The statement sequence issued by note.rs `add`: the note insert, the
FTS-index insert for the fresh rowid, then one tag insert per (trimmed)
tag.  No transaction-boundary statement appears. -/
def add_stmts (db : DB) (content : String) (tags : List String)
    (category : Option String) (is_daily : Bool) : List Stmt :=
  Stmt.insertNote content category is_daily ::
    Stmt.insertFts db.nextNoteId content ::
      tags.map (fun tag => Stmt.insertTag db.nextNoteId (rustTrim tag))

/-- Embeds note.rs `add`: inserts the note row with both timestamps `now`,
the matching FTS row, and one tag row per trimmed tag; returns the fresh
id (last_insert_rowid). -/
def add (db : DB) (content : String) (tags : List String)
    (category : Option String) (is_daily : Bool) (now : Int) : Int × DB :=
  let note_id := db.nextNoteId
  let db1 : DB := { db with
    notes := db.notes ++ [⟨note_id, content, now, now, category, is_daily⟩],
    nextNoteId := note_id + 1 }
  let db2 : DB := { db1 with notes_fts := db1.notes_fts ++ [⟨note_id, content⟩] }
  let db3 : DB := { db2 with
    tags := db2.tags ++ tags.map (fun tag => (⟨note_id, rustTrim tag⟩ : TagRow)) }
  (note_id, db3)

/-- Embeds note.rs `get_by_id`: the unique row with that id, or none. -/
def get_by_id (db : DB) (id : Int) : Option Note :=
  (db.notes.find? (fun n => n.id == id)).map (noteFromRow db)

/-- The statement sequence issued by note.rs `delete`: FTS delete, tag
delete, note delete, with no transaction boundary. -/
def delete_stmts (id : Int) : List Stmt :=
  [Stmt.deleteFts id, Stmt.deleteTagsOf id, Stmt.deleteNote id]

/-- Embeds note.rs `delete`; the Bool is whether a note row was removed. -/
def delete (db : DB) (id : Int) : Bool × DB :=
  let db1 := { db with notes_fts := db.notes_fts.filter (fun f => !(f.rowid == id)) }
  let db2 := { db1 with tags := db1.tags.filter (fun tr => !(tr.note_id == id)) }
  let affected := db2.notes.countP (fun n => n.id == id)
  let db3 := { db2 with notes := db2.notes.filter (fun n => !(n.id == id)) }
  (0 < affected, db3)

/-- The statement sequence issued by note.rs `update`: the UPDATE, then —
only when a row was affected — the FTS delete and reinsert; no transaction
boundary. -/
def update_stmts (db : DB) (id : Int) (content : String) : List Stmt :=
  Stmt.updateNote id content ::
    (if 0 < db.notes.countP (fun n => n.id == id) then
      [Stmt.deleteFts id, Stmt.insertFts id content]
    else [])

/-- Embeds note.rs `update`: rewrites content and updated_at of the row
with that id; when a row was affected, re-synchronizes the FTS entry by
delete-then-reinsert.  Returns whether a row was affected. -/
def update (db : DB) (id : Int) (content : String) (now : Int) : Bool × DB :=
  let affected := db.notes.countP (fun n => n.id == id)
  let db1 := { db with
    notes := db.notes.map (fun n =>
      if n.id == id then { n with content := content, updated_at := now } else n) }
  if 0 < affected then
    let db2 := { db1 with notes_fts := db1.notes_fts.filter (fun f => !(f.rowid == id)) }
    let db3 := { db2 with notes_fts := db2.notes_fts ++ [⟨id, content⟩] }
    (true, db3)
  else
    (false, db1)

end Note

/-- Leap-year rule of the proleptic Gregorian calendar. -/
def isLeapYear (y : Nat) : Bool :=
  y % 4 == 0 && (y % 100 != 0 || y % 400 == 0)

/-- Days in a month of the proleptic Gregorian calendar. -/
def daysInMonth (y m : Nat) : Nat :=
  if m == 2 then (if isLeapYear y then 29 else 28)
  else if m == 4 || m == 6 || m == 9 || m == 11 then 30
  else 31

/-- Days from the civil epoch 1970-01-01 to the given date (the standard
era-based civil-calendar computation; all divisions act on non-negative
operands for the dates produced by the parser). -/
def daysFromCivil (y m d : Int) : Int :=
  let y2 := if m ≤ 2 then y - 1 else y
  let era := (if 0 ≤ y2 then y2 else y2 - 399) / 400
  let yoe := y2 - era * 400
  let doy := (153 * (if 2 < m then m - 3 else m + 9) + 2) / 5 + d - 1
  let doe := yoe * 365 + yoe / 4 - yoe / 100 + doy
  era * 146097 + doe - 719468

/-- The modelled local end-of-day instant 23:59:59 of a calendar date
(local timezone modelled as a fixed zero offset, under which chrono's
`.single()` disambiguation always succeeds). -/
def endOfDayTs (y m d : Nat) : Int :=
  daysFromCivil y m d * 86400 + 86399

/-- Splits a character list on the dash separator; the accumulator holds
the current component reversed. -/
def splitDash : List Char → List Char → List (List Char)
  | [], acc => [acc.reverse]
  | c :: rest, acc =>
    if c = '-' then acc.reverse :: splitDash rest []
    else splitDash rest (c :: acc)

/-- Whether every character is an ASCII digit. -/
def allDigits (l : List Char) : Bool :=
  l.all (fun c => '0' ≤ c && c ≤ '9')

/-- Numeric value of a digit list. -/
def digitsToNat (l : List Char) : Nat :=
  l.foldl (fun acc c => acc * 10 + (c.toNat - 48)) 0

/-- Embeds chrono's NaiveDate::parse_from_str with format "%Y-%m-%d": three
dash-separated digit components (year up to four digits, month and day up
to two), the whole input consumed, and the triple a valid calendar date. -/
def parse_ymd (s : String) : Option (Nat × Nat × Nat) :=
  match splitDash s.data [] with
  | [ys, ms, ds] =>
    if allDigits ys && allDigits ms && allDigits ds &&
        decide (1 ≤ ys.length) && decide (ys.length ≤ 4) &&
        decide (1 ≤ ms.length) && decide (ms.length ≤ 2) &&
        decide (1 ≤ ds.length) && decide (ds.length ≤ 2) then
      let y := digitsToNat ys
      let m := digitsToNat ms
      let d := digitsToNat ds
      if 1 ≤ m && m ≤ 12 && 1 ≤ d && d ≤ daysInMonth y m then
        some (y, m, d)
      else none
    else none
  | _ => none

namespace Todo

/-- The due timestamp todo.rs `add` computes from an optional due-date
string: parse failure yields none, success yields the date's local
end-of-day instant. -/
def parse_due (d : String) : Option Int :=
  (parse_ymd d).map (fun t => endOfDayTs t.1 t.2.1 t.2.2)

/-- Embeds todo.rs `add`: inserts the todo row (incomplete, priority stored
verbatim from the argument, due date as computed by `parse_due`) and
returns the fresh id. -/
def add (db : DB) (task priority : String) (due_date : Option String)
    (now : Int) : Int × DB :=
  let due_ts : Option Int := due_date.bind parse_due
  (db.nextTodoId,
    { db with
      todos := db.todos ++
        [⟨db.nextTodoId, task, false, priority, due_ts, now⟩],
      nextTodoId := db.nextTodoId + 1 })

/-- The CASE expression of todo.rs `list_todos`: priority rank with
high = 0, medium = 1, low = 2 and anything else 3. -/
def prioRank (p : String) : Nat :=
  if p = "high" then 0
  else if p = "medium" then 1
  else if p = "low" then 2
  else 3

/-- The COALESCE(due_date, 9999999999) sort key of todo.rs `list_todos`. -/
def dueKey (t : TodoRow) : Int :=
  t.due_date.getD 9999999999

/-- Boolean form of the ORDER BY comparison of `list_todos`: primarily by
priority rank ascending, secondarily by coalesced due date ascending. -/
def todoLeB (a b : TodoRow) : Bool :=
  decide (prioRank a.priority < prioRank b.priority) ||
    (decide (prioRank a.priority = prioRank b.priority) &&
      decide (dueKey a ≤ dueKey b))

/-- The ORDER BY comparison of `list_todos` as a relation. -/
def TodoLe (a b : TodoRow) : Prop :=
  todoLeB a b = true

instance : DecidableRel TodoLe :=
  fun a b => inferInstanceAs (Decidable (todoLeB a b = true))

/-- Embeds todo.rs `list_todos`: optionally restrict to incomplete todos,
then order by the CASE/COALESCE key. -/
def list_todos (db : DB) (pending_only : Bool) : List TodoRow :=
  let rows := if pending_only then db.todos.filter (fun t => !t.completed)
              else db.todos
  List.insertionSort TodoLe rows

end Todo

namespace Cli

/-- The priority normalization performed inline by cmd_todo in main.rs:
lowercase, map "high"/"h" to "high" and "low"/"l" to "low", default
everything else to "medium". -/
def normalize_priority (priority : String) : String :=
  let lp := toLowerStr priority
  if lp = "high" ∨ lp = "h" then "high"
  else if lp = "low" ∨ lp = "l" then "low"
  else "medium"

/-- The todo-add pipeline of main.rs cmd_todo: normalize the priority, then
call the todo repository's add. -/
def cmd_todo_add (db : DB) (task priority : String) (due : Option String)
    (now : Int) : Int × DB :=
  Todo.add db task (normalize_priority priority) due now

end Cli

namespace Tags

/-- Embeds tags.rs `rename`: bulk string replace across all tag rows
matching the old name, with no merging or deduplication; returns the
affected row count. -/
def rename (db : DB) (old_name new_name : String) : Nat × DB :=
  let affected := db.tags.countP (fun tr => tr.tag == old_name)
  (affected,
    { db with
      tags := db.tags.map (fun tr =>
        if tr.tag == old_name then { tr with tag := new_name } else tr) })

end Tags

/-- Wall-clock reading used by the template renderer's built-ins. -/
structure Clock where
  year : Nat
  month : Nat
  day : Nat
  hour : Nat
  minute : Nat
deriving Repr, DecidableEq

/-- Two-digit zero padding (chrono's %m/%d/%H/%M). -/
def pad2 (n : Nat) : String :=
  if n < 10 then "0" ++ toString n else toString n

/-- Four-digit zero padding (chrono's %Y). -/
def pad4 (n : Nat) : String :=
  if n < 10 then "000" ++ toString n
  else if n < 100 then "00" ++ toString n
  else if n < 1000 then "0" ++ toString n
  else toString n

/-- The %Y-%m-%d rendering of the clock. -/
def fmtDate (c : Clock) : String :=
  pad4 c.year ++ "-" ++ pad2 c.month ++ "-" ++ pad2 c.day

/-- The %H:%M rendering of the clock. -/
def fmtTime (c : Clock) : String :=
  pad2 c.hour ++ ":" ++ pad2 c.minute

/-- The "%Y-%m-%d %H:%M" rendering of the clock. -/
def fmtDateTime (c : Clock) : String :=
  fmtDate c ++ " " ++ fmtTime c

namespace Template

/-- The built-in substitution pass of template.rs `render`: the date, time
and datetime placeholders replaced in source order. -/
def applyBuiltins (s : String) (now : Clock) : String :=
  let s1 := rustReplace s "\x7bdate\x7d" (fmtDate now)
  let s2 := rustReplace s1 "\x7btime\x7d" (fmtTime now)
  rustReplace s2 "\x7bdatetime\x7d" (fmtDateTime now)

/-- The custom-variable pass of template.rs `render`: for each pair in
order, every occurrence of the braced key is replaced by the value. -/
def applyVars (s : String) (vars : List (String × String)) : String :=
  vars.foldl (fun acc kv => rustReplace acc ("\x7b" ++ kv.1 ++ "\x7d") kv.2) s

/-- Embeds template.rs `render`: built-ins first, then the caller-supplied
pairs in order. -/
def render (template_content : String) (vars : List (String × String))
    (now : Clock) : String :=
  let result := template_content
  let result := rustReplace result "\x7bdate\x7d" (fmtDate now)
  let result := rustReplace result "\x7btime\x7d" (fmtTime now)
  let result := rustReplace result "\x7bdatetime\x7d" (fmtDateTime now)
  vars.foldl (fun acc kv => rustReplace acc ("\x7b" ++ kv.1 ++ "\x7d") kv.2) result

end Template

namespace Search

/-- The ORDER BY created_at DESC comparison on note rows. -/
def createdDesc (a b : NoteRow) : Prop :=
  b.created_at ≤ a.created_at

instance : DecidableRel createdDesc :=
  fun a b => inferInstanceAs (Decidable (b.created_at ≤ a.created_at))

instance : IsTotal NoteRow createdDesc :=
  ⟨fun a b => le_total b.created_at a.created_at⟩

instance : IsTrans NoteRow createdDesc :=
  ⟨fun _ _ _ hab hbc => le_trans hbc hab⟩

/-- Embeds search.rs `search_by_tag`: notes joined against the tag rows
equal to the tag (one result row per matching tag row), ordered by
created_at descending, each with its tags looked up. -/
def search_by_tag (db : DB) (tag : String) : List Note :=
  let joined := db.notes.flatMap (fun n =>
    (db.tags.filter (fun tr => tr.note_id == n.id && tr.tag == tag)).map
      (fun _ => n))
  (List.insertionSort createdDesc joined).map (noteFromRow db)

/-- Embeds search.rs `search_notes`: a given tag degrades to the tag
lookup; an empty term list yields nothing; otherwise notes are joined with
the FTS rows whose indexed content matches every term as a quoted phrase,
ordered by created_at descending, then optionally post-filtered by the
case-sensitive literal containment check on the stored content. -/
def search_notes (db : DB) (terms : List String) (tag : Option String)
    (case_sensitive : Bool) : List Note :=
  match tag with
  | some t => search_by_tag db t
  | none =>
    if terms.isEmpty then []
    else
      let matched := db.notes.flatMap (fun n =>
        (db.notes_fts.filter (fun f =>
          f.rowid == n.id && terms.all (fun t => phraseMatchB f.content t))).map
          (fun _ => n))
      let ordered := List.insertionSort createdDesc matched
      let filtered :=
        if case_sensitive then
          ordered.filter (fun n => terms.all (fun t => strContainsB n.content t))
        else ordered
      filtered.map (noteFromRow db)

end Search

/-! Helper lemmas (shared; not claim theorems). -/

/-- A replacement pass leaves a list without any occurrence of the pattern
unchanged. -/
theorem replaceSegAux_of_no_seg [BEq α] (pat rep : List α) :
    ∀ (fuel : Nat) (l : List α), hasSeg pat l = false →
      replaceSegAux pat rep fuel l = l := by
  intro fuel
  induction fuel with
  | zero => intro l _; rfl
  | succ n ih =>
    intro l hl
    cases l with
    | nil => rfl
    | cons c cs =>
      have h1 : leadsWith pat (c :: cs) = false ∧ hasSeg pat cs = false := by
        simpa [hasSeg] using hl
      rw [replaceSegAux, h1.1]
      simp [ih cs h1.2]

/-- Rust's replace with an absent pattern is the identity. -/
theorem rustReplace_of_no_seg (s pat rep : String)
    (h : hasSeg pat.data s.data = false) : rustReplace s pat rep = s := by
  unfold rustReplace
  split
  · rfl
  · rw [replaceSegAux_of_no_seg pat.data rep.data s.data.length s.data h]

/-- The custom-variable pass leaves a string free of all the braced keys
unchanged. -/
theorem applyVars_of_no_seg (s : String) (vars : List (String × String))
    (h : ∀ kv ∈ vars, hasSeg ("\x7b" ++ kv.1 ++ "\x7d").data s.data = false) :
    Template.applyVars s vars = s := by
  induction vars with
  | nil => rfl
  | cons kv rest ih =>
    unfold Template.applyVars
    rw [List.foldl_cons, rustReplace_of_no_seg _ _ _ (h kv (by simp))]
    exact ih (fun kv' h' => h kv' (List.mem_cons_of_mem _ h'))

/-! Claim theorems. -/

/-- C1: the note mutations are claimed to run inside a single transaction
boundary.  The code issues the constituent statements directly on the
connection: none of the add/update/delete statement sequences contains a
transaction-boundary statement, and interrupting `add` after its first
statement (or `delete` after its first statement) leaves a state holding a
note row with no matching full-text index row. -/
theorem C1_note_mutations_lack_transaction :
    (Note.add_stmts emptyDB "hello" ["work"] none false).all
      (fun s => !s.isTx) = true ∧
    (Note.update_stmts (Note.add emptyDB "hello" ["work"] none false 0).2 1
      "bye").all (fun s => !s.isTx) = true ∧
    (Note.delete_stmts 1).all (fun s => !s.isTx) = true ∧
    (execStmts 0 emptyDB
        ((Note.add_stmts emptyDB "hello" ["work"] none false).take 1)).notes.any
      (fun n =>
        (execStmts 0 emptyDB
            ((Note.add_stmts emptyDB "hello" ["work"] none false).take 1)).notes_fts.all
          (fun f => !(f.rowid == n.id))) = true ∧
    (execStmts 0 (Note.add emptyDB "hello" ["work"] none false 0).2
        ((Note.delete_stmts 1).take 1)).notes.any
      (fun n =>
        (execStmts 0 (Note.add emptyDB "hello" ["work"] none false 0).2
            ((Note.delete_stmts 1).take 1)).notes_fts.all
          (fun f => !(f.rowid == n.id))) = true := by
  decide

/-- C10: updating a note id that is not present returns false and leaves
the whole store (note rows, tag rows, index rows, todos) unchanged; the
index delete-then-reinsert is not performed. -/
theorem C10_update_absent_id_noop (db : DB) (id : Int) (content : String)
    (now : Int) (h : ∀ n ∈ db.notes, n.id ≠ id) :
    Note.update db id content now = (false, db) := by
  have hcount : db.notes.countP (fun n => n.id == id) = 0 := by
    rw [List.countP_eq_zero]
    intro a ha
    simp [h a ha]
  have hmap : db.notes.map (fun n =>
      if n.id == id then { n with content := content, updated_at := now }
      else n) = db.notes := by
    have hfix : ∀ a ∈ db.notes,
        (if a.id == id then { a with content := content, updated_at := now }
          else a) = a := by
      intro a ha
      have : (a.id == id) = false := by simp [h a ha]
      simp [this]
    rw [List.map_congr_left hfix]
    exact List.map_id db.notes
  simp only [Note.update, hcount, hmap]
  rfl

/-- Closed instance of C10 at a one-note store and an absent id. -/
theorem C10_witness :
    (∀ n ∈ ({ emptyDB with notes := [⟨1, "a", 0, 0, none, false⟩] } : DB).notes,
      n.id ≠ 2) ∧
    Note.update { emptyDB with notes := [⟨1, "a", 0, 0, none, false⟩] } 2 "b" 9 =
      (false, { emptyDB with notes := [⟨1, "a", 0, 0, none, false⟩] }) :=
  ⟨by decide,
    C10_update_absent_id_noop
      { emptyDB with notes := [⟨1, "a", 0, 0, none, false⟩] } 2 "b" 9 (by decide)⟩

/-- C2: the priority persisted by the todo-add pipeline is exactly one of
"high"/"medium"/"low": inputs lower-casing to "high"/"h" store "high",
those lower-casing to "low"/"l" store "low", everything else stores
"medium"; the inserted row carries the normalized value, never the raw
caller string. -/
theorem C2_todo_priority_normalized (db : DB) (task p : String)
    (due : Option String) (now : Int) :
    (Cli.normalize_priority p = "high" ∨ Cli.normalize_priority p = "medium" ∨
      Cli.normalize_priority p = "low") ∧
    ((toLowerStr p = "high" ∨ toLowerStr p = "h") →
      Cli.normalize_priority p = "high") ∧
    ((toLowerStr p = "low" ∨ toLowerStr p = "l") →
      Cli.normalize_priority p = "low") ∧
    (toLowerStr p ≠ "high" → toLowerStr p ≠ "h" → toLowerStr p ≠ "low" →
      toLowerStr p ≠ "l" → Cli.normalize_priority p = "medium") ∧
    (Cli.cmd_todo_add db task p due now).2.todos =
      db.todos ++ [⟨db.nextTodoId, task, false, Cli.normalize_priority p,
        due.bind Todo.parse_due, now⟩] ∧
    (Cli.cmd_todo_add db task p due now).1 = db.nextTodoId := by
  refine ⟨?_, ?_, ?_, ?_, rfl, rfl⟩
  · simp only [Cli.normalize_priority]
    split_ifs <;> simp
  · intro h
    simp only [Cli.normalize_priority]
    rcases h with h | h <;> simp [h]
  · intro h
    simp only [Cli.normalize_priority]
    rcases h with h | h <;> simp [h]
  · intro h1 h2 h3 h4
    simp only [Cli.normalize_priority]
    rw [if_neg (by tauto), if_neg (by tauto)]

/-- Closed instance of C2: "H" stores "high", "Urgent" stores "medium",
and the inserted row carries the normalized value. -/
theorem C2_witness :
    Cli.normalize_priority "H" = "high" ∧
    Cli.normalize_priority "Urgent" = "medium" ∧
    (Cli.cmd_todo_add emptyDB "t" "H" none 7).2.todos =
      [⟨1, "t", false, "high", none, 7⟩] :=
  ⟨(C2_todo_priority_normalized emptyDB "t" "H" none 7).2.1 (Or.inr (by decide)),
    (C2_todo_priority_normalized emptyDB "t" "Urgent" none 7).2.2.2.1
      (by decide) (by decide) (by decide) (by decide),
    ((C2_todo_priority_normalized emptyDB "t" "H" none 7).2.2.2.2.1).trans
      (by decide)⟩

/-- C7: the todo add always creates the row and returns the fresh id; a
due-date string that parses as a calendar date is stored as that date's
local end-of-day instant, and one that does not parse is stored as an
absent due date. -/
theorem C7_todo_due_date (db : DB) (task p s : String) (now : Int)
    (y m d : Nat) :
    (Todo.add db task p (some s) now).1 = db.nextTodoId ∧
    (Todo.add db task p (some s) now).2.todos =
      db.todos ++ [⟨db.nextTodoId, task, false, p, Todo.parse_due s, now⟩] ∧
    (parse_ymd s = some (y, m, d) →
      Todo.parse_due s = some (endOfDayTs y m d)) ∧
    (parse_ymd s = none → Todo.parse_due s = none) := by
  refine ⟨rfl, rfl, ?_, ?_⟩
  · intro h
    simp [Todo.parse_due, h]
  · intro h
    simp [Todo.parse_due, h]

/-- Closed instance of C7: an invalid calendar date yields an absent due
date yet the todo is still created with the fresh id, and a valid one
yields the end-of-day instant. -/
theorem C7_witness :
    parse_ymd "2024-02-30" = none ∧
    Todo.parse_due "2024-02-30" = none ∧
    parse_ymd "2024-01-02" = some (2024, 1, 2) ∧
    Todo.parse_due "2024-01-02" = some (endOfDayTs 2024 1 2) ∧
    (Todo.add emptyDB "t" "medium" (some "2024-02-30") 3).1 = 1 :=
  ⟨by decide,
    (C7_todo_due_date emptyDB "t" "medium" "2024-02-30" 3 0 0 0).2.2.2
      (by decide),
    by decide,
    (C7_todo_due_date emptyDB "t" "medium" "2024-01-02" 3 2024 1 2).2.2.1
      (by decide),
    (C7_todo_due_date emptyDB "t" "medium" "2024-02-30" 3 0 0 0).1⟩

/-- C8: render applies the three built-in substitutions first and the
caller-supplied pairs afterwards, and a content string containing none of
the built-in placeholders and none of the supplied braced keys is returned
verbatim (no error path exists). -/
theorem C8_render_order_and_unmatched (content : String)
    (vars : List (String × String)) (now : Clock) :
    Template.render content vars now =
      Template.applyVars (Template.applyBuiltins content now) vars ∧
    (hasSeg "\x7bdate\x7d".data content.data = false →
      hasSeg "\x7btime\x7d".data content.data = false →
      hasSeg "\x7bdatetime\x7d".data content.data = false →
      (∀ kv ∈ vars, hasSeg ("\x7b" ++ kv.1 ++ "\x7d").data content.data = false) →
      Template.render content vars now = content) := by
  constructor
  · rfl
  · intro h1 h2 h3 h4
    simp only [Template.render]
    rw [rustReplace_of_no_seg _ _ _ h1, rustReplace_of_no_seg _ _ _ h2,
      rustReplace_of_no_seg _ _ _ h3]
    exact applyVars_of_no_seg content vars h4

/-- Closed instance of C8: a placeholder-free content string is rendered
verbatim. -/
theorem C8_witness :
    hasSeg "\x7bdate\x7d".data "Hello".data = false ∧
    hasSeg "\x7btime\x7d".data "Hello".data = false ∧
    hasSeg "\x7bdatetime\x7d".data "Hello".data = false ∧
    (∀ kv ∈ [("k", "v")],
      hasSeg ("\x7b" ++ Prod.fst kv ++ "\x7d").data "Hello".data = false) ∧
    Template.render "Hello" [("k", "v")] ⟨2025, 10, 12, 9, 30⟩ = "Hello" :=
  ⟨by decide, by decide, by decide, by decide,
    (C8_render_order_and_unmatched "Hello" [("k", "v")]
        ⟨2025, 10, 12, 9, 30⟩).2 (by decide) (by decide) (by decide)
      (by decide)⟩

/-- The ORDER BY comparison of `list_todos`, unfolded to its arithmetic
meaning. -/
theorem todoLe_iff (a b : TodoRow) :
    Todo.TodoLe a b ↔
      (Todo.prioRank a.priority < Todo.prioRank b.priority ∨
        (Todo.prioRank a.priority = Todo.prioRank b.priority ∧
          Todo.dueKey a ≤ Todo.dueKey b)) := by
  simp [Todo.TodoLe, Todo.todoLeB]

instance : IsTotal TodoRow Todo.TodoLe :=
  ⟨by
    intro a b
    rw [todoLe_iff, todoLe_iff]
    omega⟩

instance : IsTrans TodoRow Todo.TodoLe :=
  ⟨by
    intro a b c hab hbc
    rw [todoLe_iff] at hab hbc ⊢
    omega⟩

/-- C5: `list_todos` returns exactly the selected todos (all of them, or
only the incomplete ones when pending_only is set) ordered primarily by
priority rank ascending (high = 0, medium = 1, low = 2, anything else 3)
and secondarily by due date ascending, an absent due date acting as the
far-future sentinel 9999999999. -/
theorem C5_list_todos_ordered (db : DB) (pending_only : Bool) :
    List.Sorted (fun a b : TodoRow =>
        Todo.prioRank a.priority < Todo.prioRank b.priority ∨
          (Todo.prioRank a.priority = Todo.prioRank b.priority ∧
            Todo.dueKey a ≤ Todo.dueKey b))
      (Todo.list_todos db pending_only) ∧
    (Todo.list_todos db true).Perm (db.todos.filter (fun t => !t.completed)) ∧
    (Todo.list_todos db false).Perm db.todos ∧
    (∀ t ∈ Todo.list_todos db true, t.completed = false) ∧
    Todo.prioRank "high" = 0 ∧ Todo.prioRank "medium" = 1 ∧
    Todo.prioRank "low" = 2 ∧
    (∀ p : String, p ≠ "high" → p ≠ "medium" → p ≠ "low" →
      Todo.prioRank p = 3) ∧
    (∀ t : TodoRow, t.due_date = none → Todo.dueKey t = 9999999999) ∧
    (∀ (t : TodoRow) (ts : Int), t.due_date = some ts → Todo.dueKey t = ts) := by
  refine ⟨?_, ?_, ?_, ?_, rfl, rfl, rfl, ?_, ?_, ?_⟩
  · have hs := List.sorted_insertionSort Todo.TodoLe
      (if pending_only then db.todos.filter (fun t => !t.completed)
        else db.todos)
    exact hs.imp (fun h => (todoLe_iff _ _).mp h)
  · exact List.perm_insertionSort Todo.TodoLe _
  · exact List.perm_insertionSort Todo.TodoLe _
  · intro t ht
    have hmem := (List.mem_insertionSort Todo.TodoLe).mp ht
    simpa using List.of_mem_filter hmem
  · intro p h1 h2 h3
    simp only [Todo.prioRank]
    rw [if_neg h1, if_neg h2, if_neg h3]
  · intro t h
    simp [Todo.dueKey, h]
  · intro t ts h
    simp [Todo.dueKey, h]

/-- Closed instance of C5: an unrecognized priority ranks 3, and a pending
listing of a concrete store contains only incomplete todos. -/
theorem C5_witness :
    Todo.prioRank "urgent" = 3 ∧
    (∀ t ∈ Todo.list_todos
        { emptyDB with todos := [⟨1, "a", true, "low", none, 0⟩,
          ⟨2, "b", false, "high", some 9, 0⟩] } true,
      t.completed = false) :=
  ⟨(C5_list_todos_ordered emptyDB false).2.2.2.2.2.2.2.1 "urgent"
      (by decide) (by decide) (by decide),
    (C5_list_todos_ordered
        { emptyDB with todos := [⟨1, "a", true, "low", none, 0⟩,
          ⟨2, "b", false, "high", some 9, 0⟩] } true).2.2.2.1⟩

/-- C6 fails as stated: adding a note with the tag " x " and reading it
back yields the tag set ["x"] — the supplied tag " x " is not in the
returned tag set, because `add` trims each tag before persisting it. -/
theorem C6_roundtrip_counterexample :
    (Note.get_by_id (Note.add emptyDB "a" [" x "] none false 0).2
        (Note.add emptyDB "a" [" x "] none false 0).1).map Note.tags =
      some ["x"] ∧
    ¬ List.Perm ["x"] [" x "] := by
  constructor
  · decide
  · intro hperm
    have : (" x " : String) ∈ ["x"] := hperm.mem_iff.mpr (by decide)
    simp at this

/-- C6 amended: `add` then `get_by_id` on the returned id yields a note
whose content, category and daily flag are as supplied and whose tag list
is the supplied tags with each tag trimmed (hence equal as a set up to
trimming), provided the fresh id is really fresh: no existing note row or
stale tag row carries it. -/
theorem C6_roundtrip_amended (db : DB) (content : String)
    (tags : List String) (category : Option String) (is_daily : Bool)
    (now : Int)
    (hfresh : ∀ n ∈ db.notes, n.id ≠ db.nextNoteId)
    (htags : ∀ tr ∈ db.tags, tr.note_id ≠ db.nextNoteId) :
    Note.get_by_id (Note.add db content tags category is_daily now).2
        (Note.add db content tags category is_daily now).1 =
      some { id := db.nextNoteId, content := content, created_at := now,
             updated_at := now, category := category, is_daily := is_daily,
             tags := tags.map rustTrim } := by
  have hfind : (db.notes ++
      [(⟨db.nextNoteId, content, now, now, category, is_daily⟩ : NoteRow)]).find?
        (fun n => n.id == db.nextNoteId) =
      some (⟨db.nextNoteId, content, now, now, category, is_daily⟩ : NoteRow) := by
    rw [List.find?_append]
    have h1 : db.notes.find? (fun n => n.id == db.nextNoteId) = none := by
      rw [List.find?_eq_none]
      intro a ha
      simpa using hfresh a ha
    rw [h1]
    simp
  have htags_eq : ((db.tags ++ tags.map
      (fun tag => (⟨db.nextNoteId, rustTrim tag⟩ : TagRow))).filter
        (fun tr => tr.note_id == db.nextNoteId)).map (fun tr => tr.tag) =
      tags.map rustTrim := by
    rw [List.filter_append]
    have hl : db.tags.filter (fun tr => tr.note_id == db.nextNoteId) = [] := by
      rw [List.filter_eq_nil_iff]
      intro a ha
      simpa using htags a ha
    have hr : (tags.map (fun tag => (⟨db.nextNoteId, rustTrim tag⟩ : TagRow))).filter
        (fun tr => tr.note_id == db.nextNoteId) =
        tags.map (fun tag => (⟨db.nextNoteId, rustTrim tag⟩ : TagRow)) := by
      rw [List.filter_eq_self]
      intro a ha
      rcases List.mem_map.mp ha with ⟨x, _, rfl⟩
      simp
    rw [hl, hr, List.nil_append, List.map_map]
    rfl
  simp only [Note.get_by_id, Note.add, noteFromRow, get_tags_for_note]
  rw [hfind, Option.map_some']
  simp only [noteFromRow, get_tags_for_note]
  rw [htags_eq]

/-- Closed instance of the amended C6 at a fresh store, with one tag that
needs trimming and one that does not. -/
theorem C6_amended_witness :
    (∀ n ∈ emptyDB.notes, n.id ≠ emptyDB.nextNoteId) ∧
    (∀ tr ∈ emptyDB.tags, tr.note_id ≠ emptyDB.nextNoteId) ∧
    Note.get_by_id (Note.add emptyDB "c" [" x ", "y"] (some "cat") false 7).2
        (Note.add emptyDB "c" [" x ", "y"] (some "cat") false 7).1 =
      some { id := 1, content := "c", created_at := 7, updated_at := 7,
             category := some "cat", is_daily := false, tags := ["x", "y"] } :=
  ⟨by decide, by decide,
    (C6_roundtrip_amended emptyDB "c" [" x ", "y"] (some "cat") false 7
        (by decide) (by decide)).trans (by decide)⟩

/-- C3: when a tag is given, search ignores the terms and the
case-sensitivity flag entirely and degrades to the tag lookup; the lookup's
results are ordered by created_at descending, every result is a note of the
store carrying a tag row equal to the tag, and every note carrying such a
tag row appears in the results. -/
theorem C3_search_with_tag (db : DB) (terms : List String) (cs : Bool)
    (t : String) :
    Search.search_notes db terms (some t) cs = Search.search_by_tag db t ∧
    List.Sorted (fun a b : Note => b.created_at ≤ a.created_at)
      (Search.search_by_tag db t) ∧
    (∀ m ∈ Search.search_by_tag db t,
      ∃ n ∈ db.notes, m = noteFromRow db n ∧
        ∃ tr ∈ db.tags, tr.note_id = n.id ∧ tr.tag = t) ∧
    (∀ n ∈ db.notes, (∃ tr ∈ db.tags, tr.note_id = n.id ∧ tr.tag = t) →
      noteFromRow db n ∈ Search.search_by_tag db t) := by
  refine ⟨rfl, ?_, ?_, ?_⟩
  · have hs := List.sorted_insertionSort Search.createdDesc
      (db.notes.flatMap (fun n =>
        (db.tags.filter (fun tr => tr.note_id == n.id && tr.tag == t)).map
          (fun _ => n)))
    exact List.Pairwise.map (noteFromRow db) (fun a b h => h) hs
  · intro m hm
    rcases List.mem_map.mp hm with ⟨n, hn, rfl⟩
    have hn' := (List.mem_insertionSort Search.createdDesc).mp hn
    rcases List.mem_flatMap.mp hn' with ⟨n', hmemn, hin⟩
    rcases List.mem_map.mp hin with ⟨tr, htr, heq⟩
    rcases List.mem_filter.mp htr with ⟨htrmem, hpred⟩
    have hpred' : tr.note_id = n'.id ∧ tr.tag = t := by simpa using hpred
    subst heq
    exact ⟨n', hmemn, rfl, tr, htrmem, hpred'.1, hpred'.2⟩
  · rintro n hn ⟨tr, htrmem, hid, htag⟩
    apply List.mem_map.mpr
    refine ⟨n, ?_, rfl⟩
    apply (List.mem_insertionSort Search.createdDesc).mpr
    apply List.mem_flatMap.mpr
    refine ⟨n, hn, List.mem_map.mpr ⟨tr, List.mem_filter.mpr ⟨htrmem, ?_⟩, rfl⟩⟩
    simp [hid, htag]

/-- Closed instance of C3 at a two-note store: the search with a tag given
equals the tag lookup and contains exactly the tagged note. -/
theorem C3_witness :
    Search.search_notes
        (Note.add (Note.add emptyDB "a" ["work"] none false 1).2
          "b" ["other"] none false 2).2
        ["ignored"] (some "work") true =
      Search.search_by_tag
        (Note.add (Note.add emptyDB "a" ["work"] none false 1).2
          "b" ["other"] none false 2).2 "work" ∧
    noteFromRow
        (Note.add (Note.add emptyDB "a" ["work"] none false 1).2
          "b" ["other"] none false 2).2
        ⟨1, "a", 1, 1, none, false⟩ ∈
      Search.search_by_tag
        (Note.add (Note.add emptyDB "a" ["work"] none false 1).2
          "b" ["other"] none false 2).2 "work" :=
  ⟨(C3_search_with_tag
      (Note.add (Note.add emptyDB "a" ["work"] none false 1).2
        "b" ["other"] none false 2).2 ["ignored"] true "work").1,
    (C3_search_with_tag
        (Note.add (Note.add emptyDB "a" ["work"] none false 1).2
          "b" ["other"] none false 2).2 ["ignored"] true "work").2.2.2
      ⟨1, "a", 1, 1, none, false⟩ (by decide)
      ⟨⟨1, "work"⟩, by decide, by decide, by decide⟩⟩

/-- Unfolds `search_notes` in the no-tag, non-empty-terms case. -/
theorem search_notes_none_eq (db : DB) (terms : List String) (cs : Bool)
    (h : terms.isEmpty = false) :
    Search.search_notes db terms none cs =
      (if cs then
        (List.insertionSort Search.createdDesc (db.notes.flatMap (fun n =>
          (db.notes_fts.filter (fun f =>
            f.rowid == n.id &&
              terms.all (fun t => phraseMatchB f.content t))).map
            (fun _ => n)))).filter
          (fun n => terms.all (fun t => strContainsB n.content t))
      else
        List.insertionSort Search.createdDesc (db.notes.flatMap (fun n =>
          (db.notes_fts.filter (fun f =>
            f.rowid == n.id &&
              terms.all (fun t => phraseMatchB f.content t))).map
            (fun _ => n)))).map (noteFromRow db) := by
  simp only [Search.search_notes, h]
  rfl

/-- C4: with no tag and a non-empty term list, every returned note is
backed by an index row for its id whose indexed content phrase-matches
every term (terms are ANDed), and under case sensitivity every returned
note's stored content contains every term literally; moreover the
case-sensitive result is exactly the case-insensitive result filtered
in-process by that literal containment check. -/
theorem C4_search_and_semantics (db : DB) (terms : List String) (cs : Bool)
    (hne : terms ≠ []) :
    (∀ m ∈ Search.search_notes db terms none cs,
      (∃ f ∈ db.notes_fts, f.rowid = m.id ∧
        ∀ t ∈ terms, phraseMatchB f.content t = true) ∧
      (cs = true → ∀ t ∈ terms, strContainsB m.content t = true)) ∧
    Search.search_notes db terms none true =
      (Search.search_notes db terms none false).filter
        (fun m => terms.all (fun t => strContainsB m.content t)) := by
  have hne' : terms.isEmpty = false := by
    cases terms with
    | nil => exact absurd rfl hne
    | cons a l => rfl
  constructor
  · intro m hm
    rw [search_notes_none_eq db terms cs hne'] at hm
    rcases List.mem_map.mp hm with ⟨n, hn, rfl⟩
    have hsplit : n ∈ List.insertionSort Search.createdDesc
        (db.notes.flatMap (fun n =>
          (db.notes_fts.filter (fun f =>
            f.rowid == n.id &&
              terms.all (fun t => phraseMatchB f.content t))).map
            (fun _ => n))) ∧
        (cs = true → terms.all (fun t => strContainsB n.content t) = true) := by
      cases cs with
      | false =>
        simp only [Bool.false_eq_true, if_false] at hn
        exact ⟨hn, fun h => absurd h (by simp)⟩
      | true =>
        simp only [if_pos] at hn
        exact ⟨List.mem_of_mem_filter hn,
          fun _ => List.of_mem_filter
            (p := fun n : NoteRow =>
              terms.all (fun t => strContainsB n.content t)) hn⟩
    rcases List.mem_flatMap.mp
      ((List.mem_insertionSort Search.createdDesc).mp hsplit.1) with
      ⟨n', hmemn, hin⟩
    rcases List.mem_map.mp hin with ⟨f, hf, heq⟩
    rcases List.mem_filter.mp hf with ⟨hfmem, hpred⟩
    have hpred' : f.rowid = n'.id ∧
        ∀ t ∈ terms, phraseMatchB f.content t = true := by
      simpa using hpred
    constructor
    · refine ⟨f, hfmem, ?_, hpred'.2⟩
      rw [heq] at hpred'
      exact hpred'.1
    · intro hcs t ht
      have := List.all_eq_true.mp (hsplit.2 hcs) t ht
      simpa using this
  · rw [search_notes_none_eq db terms true hne',
      search_notes_none_eq db terms false hne']
    simp only [if_pos, Bool.false_eq_true, if_false]
    rw [List.filter_map]
    rfl

/-- Closed instance of C4 at a one-note store whose content is
"Alpha beta": searched case-sensitively for "alpha". -/
theorem C4_witness :
    (["alpha"] : List String) ≠ [] ∧
    ((∀ m ∈ Search.search_notes (Note.add emptyDB "Alpha beta" [] none false 3).2
        ["alpha"] none true,
      (∃ f ∈ (Note.add emptyDB "Alpha beta" [] none false 3).2.notes_fts,
        f.rowid = m.id ∧
        ∀ t ∈ (["alpha"] : List String), phraseMatchB f.content t = true) ∧
      (true = true →
        ∀ t ∈ (["alpha"] : List String), strContainsB m.content t = true)) ∧
    Search.search_notes (Note.add emptyDB "Alpha beta" [] none false 3).2
        ["alpha"] none true =
      (Search.search_notes (Note.add emptyDB "Alpha beta" [] none false 3).2
        ["alpha"] none false).filter
        (fun m => (["alpha"] : List String).all
          (fun t => strContainsB m.content t))) :=
  ⟨by decide,
    C4_search_and_semantics (Note.add emptyDB "Alpha beta" [] none false 3).2
      ["alpha"] true (by decide)⟩

/-- Count of a given note id in the tag join underlying `search_by_tag`:
each note row with that id contributes one joined row per matching tag
row. -/
theorem countP_tagJoin (tags : List TagRow) (t : String) (nid : Int) :
    ∀ notes : List NoteRow,
      (notes.flatMap (fun n =>
        (tags.filter (fun tr => tr.note_id == n.id && tr.tag == t)).map
          (fun _ => n))).countP (fun n => n.id == nid) =
      notes.countP (fun n => n.id == nid) *
        tags.countP (fun tr => tr.note_id == nid && tr.tag == t) := by
  intro notes
  induction notes with
  | nil => simp
  | cons n ns ih =>
    rw [List.flatMap_cons, List.countP_append, ih,
      List.countP_cons, List.countP_map]
    by_cases h : (n.id == nid) = true
    · have hid : n.id = nid := by simpa using h
      have hconst : ((fun x : NoteRow => x.id == nid) ∘
          (fun _ : TagRow => n)) = fun _ : TagRow => true := by
        funext x
        simp [Function.comp, h]
      rw [hconst, List.countP_true, ← List.countP_eq_length_filter,
        if_pos h, hid]
      ring
    · have hconst : ((fun x : NoteRow => x.id == nid) ∘
          (fun _ : TagRow => n)) = fun _ : TagRow => false := by
        funext x
        simp [Function.comp]
        simpa using h
      rw [hconst, List.countP_false, if_neg h]
      simp [Function.const]

/-- C9: when one note row carries a given id and k tag rows pair that id
with the searched tag (a state the deduplication-free tag rename can
produce), the tag search returns that note once per matching tag row,
i.e. k times, because the lookup joins the tag relation instead of
testing membership. -/
theorem C9_duplicate_tag_rows_duplicate_results (db : DB) (t : String)
    (nid : Int) (k : Nat)
    (h1 : db.notes.countP (fun n => n.id == nid) = 1)
    (h2 : db.tags.countP (fun tr => tr.note_id == nid && tr.tag == t) = k) :
    (Search.search_by_tag db t).countP (fun m => m.id == nid) = k := by
  simp only [Search.search_by_tag]
  rw [List.countP_map]
  rw [List.Perm.countP_eq _ (List.perm_insertionSort Search.createdDesc _)]
  calc (db.notes.flatMap (fun n =>
        (db.tags.filter (fun tr => tr.note_id == n.id && tr.tag == t)).map
          (fun _ => n))).countP
        ((fun m : Note => m.id == nid) ∘ noteFromRow db) =
      (db.notes.flatMap (fun n =>
        (db.tags.filter (fun tr => tr.note_id == n.id && tr.tag == t)).map
          (fun _ => n))).countP (fun n => n.id == nid) := rfl
    _ = db.notes.countP (fun n => n.id == nid) *
        db.tags.countP (fun tr => tr.note_id == nid && tr.tag == t) :=
      countP_tagJoin db.tags t nid db.notes
    _ = k := by rw [h1, h2, one_mul]

/-- Closed instance of C9: renaming "work" to "job" on a note already
tagged "job" yields two identical tag rows, and the tag search then
returns the note twice. -/
theorem C9_witness :
    ((Tags.rename (Note.add emptyDB "n" ["work", "job"] none false 5).2
      "work" "job").2.notes.countP (fun n => n.id == 1) = 1) ∧
    ((Tags.rename (Note.add emptyDB "n" ["work", "job"] none false 5).2
      "work" "job").2.tags.countP
        (fun tr => tr.note_id == 1 && tr.tag == "job") = 2) ∧
    ((Search.search_by_tag
        (Tags.rename (Note.add emptyDB "n" ["work", "job"] none false 5).2
          "work" "job").2 "job").countP (fun m => m.id == 1) = 2) :=
  ⟨by decide, by decide,
    C9_duplicate_tag_rows_duplicate_results
      (Tags.rename (Note.add emptyDB "n" ["work", "job"] none false 5).2
        "work" "job").2 "job" 1 2 (by decide) (by decide)⟩
